import Mathlib

/-!
Verification development for the `yroom` room-synchronization engine
(`src/roomsync.rs`).  The engine multiplexes named rooms, decodes batches of
sync-protocol messages, dispatches them against a document replica and a
presence ("awareness") store, and re-encodes private-reply and broadcast
outputs.

Shallow embedding conventions:
* bytes are `Nat` (values < 256 are produced by the encoders);
* Rust strings are modelled as their byte sequences (`List Nat`), room names
  as `List Char`;
* the external crates (`lib0` codec primitives, `y_sync` message grammar and
  awareness store, `yrs` document engine) are not part of this repository;
  definitions for them are modelled from the specification and are marked
  `Modelled from the spec:` in their doc comments;
* hash maps are modelled as association lists in insertion order.
-/

namespace YRoomModel

/-- Association-list lookup with decidable keys (models `HashMap::get`). -/
def alookup {κ α : Type} [DecidableEq κ] : List (κ × α) → κ → Option α
  | [], _ => none
  | (k, v) :: rest, key => if key = k then some v else alookup rest key

/-- Association-list insert-or-replace (models `HashMap::insert`). -/
def ainsert {κ α : Type} [DecidableEq κ] : List (κ × α) → κ → α → List (κ × α)
  | [], key, v => [(key, v)]
  | (k, w) :: rest, key, v =>
      if key = k then (k, v) :: rest else (k, w) :: ainsert rest key v

/-- Association-list key removal (models `HashMap::remove`). -/
def aerase {κ α : Type} [DecidableEq κ] : List (κ × α) → κ → List (κ × α)
  | [], _ => []
  | (k, w) :: rest, key => if key = k then rest else (k, w) :: aerase rest key

/-- Insert-if-absent (models `HashMap::entry(..).or_insert_with(..)`). -/
def aensure {κ α : Type} [DecidableEq κ] (l : List (κ × α)) (key : κ) (v : α) :
    List (κ × α) :=
  match alookup l key with
  | some _ => l
  | none => l ++ [(key, v)]

/-! ## Primitive byte codec (lib0 v1 style)

Modelled from the spec: the low-level varint grammar is an external
capability (spec §1 "out of scope", §6 "varint-tagged"); it is modelled here
as the standard LEB128-style variable-length integer used by the external
codec, with length-prefixed byte buffers on top. -/

/-- Fuel-indexed LEB128 loop (structural recursion so that the kernel can
evaluate encodings); `fuel ≥ n` always suffices. -/
def encodeVarintAux : Nat → Nat → List Nat
  | 0, n => [n]
  | fuel + 1, n =>
      if n < 128 then [n] else (n % 128 + 128) :: encodeVarintAux fuel (n / 128)

/-- Modelled from the spec: LEB128-style varint encoding of a natural
number (external `lib0` write_var). -/
def encodeVarint (n : Nat) : List Nat := encodeVarintAux n n

/-- Modelled from the spec: varint decoding; returns the value and the
remaining bytes, or `none` when the buffer ends inside the varint. -/
def decodeVarint : List Nat → Option (Nat × List Nat)
  | [] => none
  | b :: rest =>
      if b < 128 then some (b, rest)
      else
        match decodeVarint rest with
        | some (n, r) => some (n * 128 + (b - 128), r)
        | none => none

/-- Modelled from the spec: length-prefixed byte buffer (external `lib0`
write_buf / write_string; strings are modelled as their UTF-8 bytes). -/
def writeBuf (b : List Nat) : List Nat :=
  encodeVarint b.length ++ b

/-- Modelled from the spec: read a length-prefixed byte buffer; `none` when
the buffer ends early. -/
def readBuf (l : List Nat) : Option (List Nat × List Nat) :=
  match decodeVarint l with
  | some (n, r) => if n ≤ r.length then some (r.take n, r.drop n) else none
  | none => none

/-! ## Protocol message grammar

Modelled from the spec (§4.2, §6): the typed message sequence carried by the
wire — `SyncStep1(stateVector)`, `SyncStep2(diffBytes)`, `Update(diffBytes)`,
`AwarenessQuery`, `Awareness(diffBytes)`, `Auth(optionalReason)`,
`Custom(typeTag, opaqueBytes)` — with the external varint-tagged grammar of
the `y_sync` crate.  State vectors and awareness updates are carried in
structured (already inner-decoded) form, as in the external crate. -/

/-- Modelled from the spec: one client entry of a presence ("awareness")
update: client id, logical clock, and the JSON state bytes (the external
store uses the literal string "null" for a removed state). -/
structure AwWireEntry where
  client : Nat
  clock : Nat
  json : List Nat
deriving DecidableEq, Repr

/-- Modelled from the spec: a presence diff/snapshot as carried on the wire. -/
abbrev AwarenessUpdate := List AwWireEntry

/-- Modelled from the spec: the byte sequence of the JSON literal `null`,
denoting a removed presence state. -/
def nullBytes : List Nat := [110, 117, 108, 108]

/-- Sync-protocol sub-messages (spec §4.2). -/
inductive SyncMessage where
  | syncStep1 (sv : List (Nat × Nat))
  | syncStep2 (data : List Nat)
  | update (data : List Nat)
deriving DecidableEq, Repr

/-- Protocol messages (spec §4.2). -/
inductive Message where
  | sync (m : SyncMessage)
  | awareness (u : AwarenessUpdate)
  | auth (denyReason : Option (List Nat))
  | awarenessQuery
  | custom (tag : Nat) (data : List Nat)
deriving DecidableEq, Repr

/-- Modelled from the spec: v1 encoding of a state vector (entry count, then
client/clock varint pairs), as produced by the external document engine. -/
def encodeSV (sv : List (Nat × Nat)) : List Nat :=
  encodeVarint sv.length ++ sv.flatMap (fun p => encodeVarint p.1 ++ encodeVarint p.2)

/-- Modelled from the spec: v1 encoding of an awareness update (entry count,
then client, clock, and length-prefixed JSON bytes per entry). -/
def encodeAwUpdate (u : AwarenessUpdate) : List Nat :=
  encodeVarint u.length ++
    u.flatMap (fun e => encodeVarint e.client ++ encodeVarint e.clock ++ writeBuf e.json)

/-- Modelled from the spec: external `y_sync` message serialization.  Tags:
0 = sync (subtags 0/1/2 for step1/step2/update), 1 = awareness, 2 = auth
(subtag 0 = denied with reason, 1 = granted), 3 = awareness query; any other
tag is a custom message carrying a length-prefixed body. -/
def encodeMessage : Message → List Nat
  | .sync (.syncStep1 sv) => 0 :: 0 :: writeBuf (encodeSV sv)
  | .sync (.syncStep2 d) => 0 :: 1 :: writeBuf d
  | .sync (.update d) => 0 :: 2 :: writeBuf d
  | .awareness u => 1 :: writeBuf (encodeAwUpdate u)
  | .auth (some reason) => 2 :: 0 :: writeBuf reason
  | .auth none => [2, 1]
  | .awarenessQuery => [3]
  | .custom tag data => encodeVarint tag ++ writeBuf data

/-- A message whose encoding is unambiguous: custom messages must not reuse
the four reserved tags of the external grammar. -/
def msgTagOK : Message → Bool
  | .custom tag _ => decide (4 ≤ tag)
  | _ => true

/-- Result of decoding one message from a byte stream.  `eob` models the
external `EndOfBuffer` condition, which the external message reader treats
as the (silent) end of the batch; `bad` models any other per-message decode
error, carrying the position at which decoding continues. -/
inductive DR (α : Type) where
  | ok (a : α) (rest : List Nat)
  | eob
  | bad (rest : List Nat)
deriving Repr

/-- Modelled from the spec: varint read against a live cursor; end of buffer
inside the varint is an `eob`. -/
def readVar : List Nat → DR Nat
  | [] => .eob
  | b :: rest =>
      if b < 128 then .ok b rest
      else
        match readVar rest with
        | .ok n r => .ok (n * 128 + (b - 128)) r
        | _ => .eob

/-- Modelled from the spec: length-prefixed buffer read against a live
cursor. -/
def readBufD (l : List Nat) : DR (List Nat) :=
  match readVar l with
  | .ok n r => if n ≤ r.length then .ok (r.take n) (r.drop n) else .eob
  | _ => .eob

/-- Modelled from the spec: read `n` client/clock pairs of a state vector. -/
def readPairs : Nat → List Nat → Option (List (Nat × Nat) × List Nat)
  | 0, l => some ([], l)
  | n + 1, l => do
      let (a, r1) ← decodeVarint l
      let (b, r2) ← decodeVarint r1
      let (ps, r3) ← readPairs n r2
      some ((a, b) :: ps, r3)

/-- Modelled from the spec: decode a state vector from the content of its
length-prefixed buffer (trailing bytes of the inner buffer are ignored, as
in the external decoder). -/
def decodeSVContent (buf : List Nat) : Option (List (Nat × Nat)) := do
  let (n, r) ← decodeVarint buf
  let (ps, _) ← readPairs n r
  some ps

/-- Modelled from the spec: read `n` awareness entries. -/
def readAwEntries : Nat → List Nat → Option (List AwWireEntry × List Nat)
  | 0, l => some ([], l)
  | n + 1, l => do
      let (c, r1) ← decodeVarint l
      let (ck, r2) ← decodeVarint r1
      let (j, r3) ← readBuf r2
      let (es, r4) ← readAwEntries n r3
      some (⟨c, ck, j⟩ :: es, r4)

/-- Modelled from the spec: decode an awareness update from the content of
its length-prefixed buffer. -/
def decodeAwContent (buf : List Nat) : Option AwarenessUpdate := do
  let (n, r) ← decodeVarint buf
  let (es, _) ← readAwEntries n r
  some es

/-- Modelled from the spec: decode one protocol message from the stream.
An end-of-buffer at any point — including inside an inner state-vector or
awareness payload, whose errors the external reader cannot distinguish from
stream exhaustion — yields `eob`, silently ending the batch.  An unknown
sync or auth subtag yields `bad` with the cursor position after the subtag,
and the batch continues there. -/
def decodeMessage (l : List Nat) : DR Message :=
  match readVar l with
  | .ok tag r =>
    if tag = 0 then
      match readVar r with
      | .ok sub r2 =>
        if sub = 0 then
          match readBufD r2 with
          | .ok buf r3 =>
              match decodeSVContent buf with
              | some sv => .ok (.sync (.syncStep1 sv)) r3
              | none => .eob
          | _ => .eob
        else if sub = 1 then
          match readBufD r2 with
          | .ok buf r3 => .ok (.sync (.syncStep2 buf)) r3
          | _ => .eob
        else if sub = 2 then
          match readBufD r2 with
          | .ok buf r3 => .ok (.sync (.update buf)) r3
          | _ => .eob
        else .bad r2
      | _ => .eob
    else if tag = 1 then
      match readBufD r with
      | .ok buf r2 =>
          match decodeAwContent buf with
          | some u => .ok (.awareness u) r2
          | none => .eob
      | _ => .eob
    else if tag = 2 then
      match readVar r with
      | .ok sub r2 =>
        if sub = 0 then
          match readBufD r2 with
          | .ok reason r3 => .ok (.auth (some reason)) r3
          | _ => .eob
        else if sub = 1 then .ok (.auth none) r2
        else .bad r2
      | _ => .eob
    else if tag = 3 then .ok .awarenessQuery r
    else
      match readBufD r with
      | .ok buf r2 => .ok (.custom tag buf) r2
      | _ => .eob
  | _ => .eob

/-- One item yielded by the decoding iterator: a parsed message or a
per-message decode error (surfaced as a diagnostic, src line 587-589). -/
inductive DecodeItem where
  | ok (m : Message)
  | err
deriving DecidableEq, Repr

/-- Fuel-indexed decoding loop over a byte stream. -/
def decodeItemsF : Nat → List Nat → List DecodeItem
  | 0, _ => []
  | fuel + 1, l =>
      match decodeMessage l with
      | .eob => []
      | .ok m r => .ok m :: decodeItemsF fuel r
      | .bad r => .err :: decodeItemsF fuel r

/-- Modelled from the spec: the lazy, finite sequence of decode results
yielded by the decoder iterator (`DecoderWrapper`'s `Iterator` impl,
src lines 129-137, driving the external message reader). -/
def decodeItems (l : List Nat) : List DecodeItem := decodeItemsF (l.length + 1) l

/-! ## Protocol version, settings, and the encoder/decoder wrappers -/

/-- The two wire formats (src lines 28-33). -/
inductive ProtocolVersion where
  | v1
  | v2
deriving DecidableEq, Repr

/-- Conversion from a configured byte to a protocol version
(`impl From<u8> for ProtocolVersion`, src lines 139-148): 1 maps to V1 and
2 to V2; any other value panics ("Invalid encoder version"), modelled as
`none`. -/
def protocolVersionFromU8 (version : Nat) : Option ProtocolVersion :=
  if version = 1 then some .v1
  else if version = 2 then some .v2
  else none

/-- Room settings (src lines 150-155).  The source field `name_prefix` is
called `namePfx` here. -/
structure YRoomSettings where
  protocol_version : ProtocolVersion
  namePfx : Bool
  server_start_sync : Bool
deriving DecidableEq, Repr

/-- Default settings (src lines 157-165): V1, no name prefix, server starts
the sync handshake. -/
def defaultSettings : YRoomSettings :=
  { protocol_version := .v1, namePfx := false, server_start_sync := true }

/-- A settings dictionary as supplied from the host language: each
recognized key is either absent or carries a value of the right type
(values of the wrong type fail extraction before this model applies). -/
structure SettingsDict where
  protocolVersionKey : Option Nat
  namePfxKey : Option Bool
  serverStartSyncKey : Option Bool
deriving DecidableEq, Repr

/-- Settings construction from a dictionary (`FromPyObject for
YRoomSettings`, src lines 167-190).  A missing version key defaults to V1;
an out-of-range version value makes construction fail (the panic in
`From<u8>`). -/
def extractSettings (d : SettingsDict) : Option YRoomSettings :=
  match d.protocolVersionKey with
  | some v =>
      (protocolVersionFromU8 v).map fun pv =>
        { protocol_version := pv
          namePfx := d.namePfxKey.getD false
          server_start_sync := d.serverStartSyncKey.getD true }
  | none =>
      some
        { protocol_version := .v1
          namePfx := d.namePfxKey.getD false
          server_start_sync := d.serverStartSyncKey.getD true }

/-- Modelled from the spec: the leading framing of the external V2 encoder
(the two formats are mutually incompatible, spec §4.2); modelled as a
distinguishing header byte.  V1 has no header. -/
def versionHeader : ProtocolVersion → List Nat
  | .v1 => []
  | .v2 => [2]

/-- Encoder wrapper output (`EncoderWrapper::to_vec`, src lines 52-81): an
empty message list yields zero bytes — before any name prefix or format
header is written; otherwise the optional name prefix is written first,
then every message in order. -/
def toVec (v : ProtocolVersion) (pfxOpt : Option (List Nat)) (msgs : List Message) :
    List Nat :=
  if msgs.isEmpty then []
  else
    versionHeader v ++
      (match pfxOpt with
       | some p => writeBuf p
       | none => []) ++
      msgs.flatMap encodeMessage

/-- Decoder wrapper construction (`DecoderWrapper::new`, src lines 91-127):
checks the format framing (the V2 constructor fails on a malformed or empty
buffer), then reads the document name when a name prefix is expected.
Returns the optional document name and the message-stream bytes, or `none`
for a framing/header error. -/
def decoderNew (v : ProtocolVersion) (namePfx : Bool) (buf : List Nat) :
    Option (Option (List Nat) × List Nat) :=
  match v with
  | .v1 =>
      if namePfx then
        match readBuf buf with
        | some (name, r) => some (some name, r)
        | none => none
      else some (none, buf)
  | .v2 =>
      match buf with
      | 2 :: r =>
          if namePfx then
            match readBuf r with
            | some (name, r2) => some (some name, r2)
            | none => none
          else some (none, r)
      | _ => none

/-! ## Presence ("awareness") store

Modelled from the spec (§2): the external presence store keeps per-client-id
metadata with logical clocks, supports computing an update, applying a
received diff, and removing a client's state, and reports added/updated/
removed client-id sets for each apply.  `meta` records the last seen clock
of every client id ever observed (it never shrinks); `states` holds the
JSON payload of the currently-present clients; a client id is reported
`added` only when it has never been observed before, `removed` when its
live state is dropped, and `updated` otherwise. -/

/-- Modelled from the spec: the presence store's state. `ownId` is the
client id of the store's own document replica. -/
structure Awareness where
  ownId : Nat
  meta : List (Nat × Nat)
  states : List (Nat × List Nat)
deriving DecidableEq, Repr

/-- A fresh presence store. -/
def Awareness.init (ownId : Nat) : Awareness := ⟨ownId, [], []⟩

/-- Modelled from the spec: the full presence snapshot (`update()`; the
spec's "full presence snapshot" in §4.3): one entry per client id ever
observed, with its clock and its JSON state — `null` for clients whose
state has been removed. -/
def awFullUpdate (aw : Awareness) : AwarenessUpdate :=
  aw.meta.map fun p => ⟨p.1, p.2, (alookup aw.states p.1).getD nullBytes⟩

/-- Modelled from the spec: the presence entries (`clients()`) — the
clients with a live (non-null) state. -/
def Awareness.clients (aw : Awareness) : List (Nat × List Nat) := aw.states

/-- Modelled from the spec: apply one wire entry.  Returns the new store
and the added/removed client-id lists reported for this entry.  A
never-seen client id is `added` when its state is non-null; a known client
id changes only when the incoming clock is newer (or a null entry at the
same clock removes its live state); a null state for the store's own live
client id is refused and its clock bumped instead. -/
def awApplyEntry (aw : Awareness) (e : AwWireEntry) :
    Awareness × List Nat × List Nat :=
  match alookup aw.meta e.client with
  | some prevClock =>
      if prevClock < e.clock ∨
          (prevClock = e.clock ∧ e.json = nullBytes ∧
            (alookup aw.states e.client).isSome) then
        if e.json = nullBytes then
          if e.client = aw.ownId ∧ (alookup aw.states e.client).isSome then
            ({ aw with meta := ainsert aw.meta e.client (e.clock + 1) }, [], [])
          else
            ({ aw with meta := ainsert aw.meta e.client e.clock,
                       states := aerase aw.states e.client }, [], [e.client])
        else
          ({ aw with meta := ainsert aw.meta e.client e.clock,
                     states := ainsert aw.states e.client e.json }, [], [])
      else (aw, [], [])
  | none =>
      if e.json = nullBytes then
        ({ aw with meta := ainsert aw.meta e.client e.clock }, [], [])
      else
        ({ aw with meta := ainsert aw.meta e.client e.clock,
                   states := ainsert aw.states e.client e.json }, [e.client], [])

/-- Modelled from the spec: apply a whole wire update entry by entry,
aggregating the reported added/removed client-id lists. -/
def awApplyUpdate (aw : Awareness) : AwarenessUpdate → Awareness × List Nat × List Nat
  | [] => (aw, [], [])
  | e :: rest =>
      let s1 := awApplyEntry aw e
      let s2 := awApplyUpdate s1.1 rest
      (s2.1, s1.2.1 ++ s2.2.1, s1.2.2 ++ s2.2.2)

/-- Modelled from the spec: `remove_state` — drop a client's live state and
bump its clock; the per-client metadata entry is retained (so the removal
shows up as a null entry in later snapshots). -/
def awRemoveState (aw : Awareness) (client : Nat) : Awareness :=
  { aw with
    states := aerase aw.states client
    meta := match alookup aw.meta client with
            | some ck => ainsert aw.meta client (ck + 1)
            | none => aw.meta }

/-! ## Document engine -/

/-- Modelled from the spec: the external CRDT document engine is out of
scope (§1); the replica is modelled as the list of decoded update blobs
applied so far, in application order. -/
abbrev Doc := List (List Nat)

/-- Modelled from the spec: v1 decoding of a document update blob; the
external grammar is opaque — modelled as a length-prefixed body that must
parse (so the empty buffer and truncated buffers fail to decode). -/
def docUpdateDecodeV1 (b : List Nat) : Option (List Nat) :=
  match readBuf b with
  | some (u, _) => some u
  | none => none

/-- Modelled from the spec: v2 decoding of a document update blob — a
mutually incompatible format, modelled with the v2 header byte. -/
def docUpdateDecodeV2 (b : List Nat) : Option (List Nat) :=
  match b with
  | 2 :: r => docUpdateDecodeV1 r
  | _ => none

/-- Modelled from the spec: the document's own state vector — a compact
summary of how much history the replica has seen; the fresh document has
the empty state vector. -/
def docStateVector (d : Doc) : List (Nat × Nat) :=
  if d.isEmpty then [] else [(0, d.length)]

/-- Modelled from the spec: the update diff of the document against a
remote state vector (the SyncStep2 payload bytes). -/
def docDiff (d : Doc) (sv : List (Nat × Nat)) : List Nat :=
  writeBuf (encodeSV sv ++ d.flatMap writeBuf)

/-! ## Room -/

/-- Room state (src lines 425-429): one presence store (which owns the
document replica), the document, the connection table mapping connection
ids to the client-id sets they own, and the room's immutable settings. -/
structure YRoom where
  aw : Awareness
  doc : Doc
  connections : List (Nat × List Nat)
  settings : YRoomSettings
deriving DecidableEq, Repr

/-- Set insertion for owned client-id sets (`HashSet::insert`). -/
def ninsert (s : List Nat) (x : Nat) : List Nat := if x ∈ s then s else s ++ [x]

/-- Set removal for owned client-id sets (`HashSet::remove`). -/
def nerase (s : List Nat) (x : Nat) : List Nat := s.filter (fun y => y ≠ x)

/-- The connection-table effect of the presence observer registered during
an awareness apply (src lines 562-577): every reported added client id is
inserted into the applying connection's owned set, then every reported
removed client id is erased from it. -/
def applyOwned (owned added removed : List Nat) : List Nat :=
  removed.foldl nerase (added.foldl ninsert owned)

/-- Dispatch of one decoded message (the match of `YRoom::handle_message`,
src lines 504-590): returns the new room state and the message lists
appended to the private (sync) and broadcast (update) encoders. -/
def dispatchOne (room : YRoom) (connId : Nat) :
    Message → YRoom × List Message × List Message
  | .sync (.syncStep1 sv) =>
      (room, [.sync (.syncStep2 (docDiff room.doc sv))], [])
  | .sync (.syncStep2 data) =>
      let dec := match room.settings.protocol_version with
                 | .v1 => docUpdateDecodeV1 data
                 | .v2 => docUpdateDecodeV2 data
      match dec with
      | some u => ({ room with doc := room.doc ++ [u] }, [], [])
      | none => (room, [], [])
  | .sync (.update data) =>
      match docUpdateDecodeV1 data with
      | some u =>
          ({ room with doc := room.doc ++ [u] }, [], [.sync (.update data)])
      | none => (room, [], [])
  | .auth _ => (room, [.auth none], [])
  | .awarenessQuery => (room, [.awareness (awFullUpdate room.aw)], [])
  | .awareness wu =>
      let conns0 := aensure room.connections connId []
      let applied := awApplyUpdate room.aw wu
      let owned := (alookup conns0 connId).getD []
      let conns1 := ainsert conns0 connId (applyOwned owned applied.2.1 applied.2.2)
      ({ room with aw := applied.1, connections := conns1 },
        [], [.awareness (awFullUpdate applied.1)])
  | .custom _ _ => (room, [], [])

/-- The dispatch loop over the decoder's yielded items (src line 504):
per-message decode errors are logged and skipped; every parsed message is
dispatched. -/
def dispatchItems (room : YRoom) (connId : Nat) :
    List DecodeItem → YRoom × List Message × List Message
  | [] => (room, [], [])
  | .err :: rest => dispatchItems room connId rest
  | .ok m :: rest =>
      let s1 := dispatchOne room connId m
      let s2 := dispatchItems s1.1 connId rest
      (s2.1, s1.2.1 ++ s2.2.1, s1.2.2 ++ s2.2.2)

/-- `YRoom::handle_message` (src lines 476-596): construct the decoder —
a framing/header failure returns empty payloads with no state change —
then dispatch every yielded item and re-encode the two accumulated output
lists, passing the decoded document name to both encoders as their name
prefix. -/
def YRoom.handleMessage (room : YRoom) (connId : Nat) (payload : List Nat) :
    YRoom × List Nat × List Nat :=
  match decoderNew room.settings.protocol_version room.settings.namePfx payload with
  | none => (room, [], [])
  | some (docName, body) =>
      let s := dispatchItems room connId (decodeItems body)
      (s.1, toVec room.settings.protocol_version docName s.2.1,
        toVec room.settings.protocol_version docName s.2.2)

/-- `YRoom::connect` (src lines 451-474): ensure a (possibly empty)
connection entry, then, when the server starts the sync, reply privately
with a SyncStep1 carrying the document's own state vector, plus a full
presence snapshot when at least one presence entry exists; the broadcast
payload is always empty. -/
def YRoom.connect (room : YRoom) (connId : Nat) : YRoom × List Nat × List Nat :=
  let room1 := { room with connections := aensure room.connections connId [] }
  let msgs :=
    if room.settings.server_start_sync then
      [Message.sync (.syncStep1 (docStateVector room.doc))] ++
        (if room.aw.clients.isEmpty then []
         else [Message.awareness (awFullUpdate room.aw)])
    else []
  (room1, toVec room.settings.protocol_version none msgs, [])

/-- `YRoom::disconnect` (src lines 598-615): remove the state of every
client id owned by this connection from the presence store, drop the
connection's table entry, then return the encoding of the resulting full
presence snapshot (with no name prefix — src line 609). -/
def YRoom.disconnect (room : YRoom) (connId : Nat) : YRoom × List Nat :=
  let owned := (alookup room.connections connId).getD []
  let aw1 := owned.foldl awRemoveState room.aw
  let room1 := { room with aw := aw1, connections := aerase room.connections connId }
  (room1, toVec room.settings.protocol_version none [.awareness (awFullUpdate aw1)])

/-! ## Room manager -/

/-- Manager state (src lines 214-219): the room registry, the default
settings, and the ordered per-prefix settings list. -/
structure YRoomManager where
  rooms : List (List Char × YRoom)
  default_settings : YRoomSettings
  room_settings : List (List Char × YRoomSettings)
deriving Repr

/-- `YRoomManager::find_settings` (src lines 269-276): scan the ordered
prefix configuration once; the first entry whose prefix is a literal prefix
of the room name wins; otherwise the default settings. -/
def findSettings (cfg : List (List Char × YRoomSettings))
    (dflt : YRoomSettings) (room : List Char) : YRoomSettings :=
  match cfg with
  | [] => dflt
  | (p, config) :: rest =>
      if p.isPrefixOf room then config else findSettings rest dflt room

/-- `YRoom::new` without seed data (src lines 431-449): a fresh presence
store and an empty document.  The fresh replica's own client id is
modelled as 0. -/
def newRoom (settings : YRoomSettings) : YRoom :=
  { aw := Awareness.init 0, doc := [], connections := [], settings := settings }

/-- `YRoomManager::get_room` (src lines 261-267): look the room up, lazily
creating it with resolved settings when absent. -/
def YRoomManager.getRoom (m : YRoomManager) (room : List Char) :
    YRoomManager × YRoom :=
  match alookup m.rooms room with
  | some r => (m, r)
  | none =>
      let r := newRoom (findSettings m.room_settings m.default_settings room)
      ({ m with rooms := m.rooms ++ [(room, r)] }, r)

/-- `YRoomManager::has_room` (src lines 310-312). -/
def YRoomManager.hasRoom (m : YRoomManager) (room : List Char) : Bool :=
  (alookup m.rooms room).isSome

/-- `YRoomManager::disconnect` (src lines 302-308): get (lazily creating)
the room, disconnect the connection in it, and return an empty private
payload together with the room's broadcast payload. -/
def YRoomManager.disconnect (m : YRoomManager) (room : List Char) (connId : Nat) :
    YRoomManager × List Nat × List Nat :=
  let g := m.getRoom room
  let s := g.2.disconnect connId
  ({ g.1 with rooms := ainsert g.1.rooms room s.1 }, [], s.2)

/-- `YRoomManager::is_room_alive` together with `YRoom::is_alive`
(src lines 314-320, 625-627). -/
def YRoomManager.isRoomAlive (m : YRoomManager) (room : List Char) : Bool :=
  match alookup m.rooms room with
  | some r => !r.connections.isEmpty
  | none => false

/-- Room settings with wire format V1 (the C4 scenario). -/
def v1Settings : YRoomSettings :=
  { protocol_version := .v1, namePfx := false, server_start_sync := true }

/-- Room settings with wire format V2 (the C4 scenario). -/
def v2Settings : YRoomSettings :=
  { protocol_version := .v2, namePfx := false, server_start_sync := true }

/-- A fresh room whose settings expect a name prefix. -/
def pfxRoom : YRoom :=
  newRoom { protocol_version := .v1, namePfx := true, server_start_sync := true }

/-- An empty manager with default settings and no prefix configuration. -/
def emptyManager : YRoomManager :=
  { rooms := [], default_settings := defaultSettings, room_settings := [] }

/-- The initial state of a room as produced by `YRoom::new` (src 431-449):
empty connection table and fresh presence store, for any settings and any
seed document. -/
def YRoom.initial (settings : YRoomSettings) (d : Doc) : YRoom :=
  { aw := Awareness.init 0, doc := d, connections := [], settings := settings }

/-- One public room operation — connect, handle_message on arbitrary input
bytes, or disconnect — as a step relation on room states. -/
inductive RoomStep : YRoom → YRoom → Prop
  | connect (room : YRoom) (connId : Nat) :
      RoomStep room (room.connect connId).1
  | message (room : YRoom) (connId : Nat) (payload : List Nat) :
      RoomStep room (room.handleMessage connId payload).1
  | disconnect (room : YRoom) (connId : Nat) :
      RoomStep room (room.disconnect connId).1

/-- The single-writer invariant together with the auxiliary facts needed to
preserve it: connection-table keys are unique, every owned client id has
been observed by the presence store, and a client id belongs to at most one
connection's owned set. -/
def ConnInv (room : YRoom) : Prop :=
  (room.connections.map Prod.fst).Nodup ∧
  (∀ j s, alookup room.connections j = some s →
    ∀ c ∈ s, (alookup room.aw.meta c).isSome = true) ∧
  (∀ j s j' s', alookup room.connections j = some s →
    alookup room.connections j' = some s' →
    ∀ c, c ∈ s → c ∈ s' → j = j')

/-- A reachable room used as the C2 witness: connection 1 has introduced
client 10 through an awareness message on a fresh default room. -/
def c2Room : YRoom :=
  ((YRoom.initial defaultSettings []).handleMessage 1
    (toVec .v1 none [Message.awareness [⟨10, 1, [34, 97, 34]⟩]])).1

/-- JSON state bytes used in the C1 scenario (the string "a"). -/
def jsonA : List Nat := [34, 97, 34]

/-- JSON state bytes used in the C1 scenario (the string "b"). -/
def jsonB : List Nat := [34, 98, 34]

/-- The C1 scenario room: presence entries for client 10 (owned by
connection 1) and client 20 (owned by connection 2); default V1 settings. -/
def c1Room : YRoom :=
  { aw := ⟨0, [(10, 1), (20, 1)], [(10, jsonA), (20, jsonB)]⟩
    doc := []
    connections := [(1, [10]), (2, [20])]
    settings := defaultSettings }

/-! ## Supporting lemmas and claim theorems -/

theorem alookup_ainsert_self {κ α : Type} [DecidableEq κ]
    (l : List (κ × α)) (k : κ) (v : α) : alookup (ainsert l k v) k = some v := by
  induction l with
  | nil => simp [ainsert, alookup]
  | cons hd tl ih =>
      obtain ⟨k0, v0⟩ := hd
      by_cases h : k = k0 <;> simp [ainsert, alookup, h, ih]

theorem alookup_ainsert_ne {κ α : Type} [DecidableEq κ]
    (l : List (κ × α)) (k k' : κ) (v : α) (h : k' ≠ k) :
    alookup (ainsert l k v) k' = alookup l k' := by
  induction l with
  | nil => simp [ainsert, alookup, h]
  | cons hd tl ih =>
      obtain ⟨k0, v0⟩ := hd
      by_cases h0 : k = k0
      · subst h0; simp [ainsert, alookup, h]
      · by_cases h1 : k' = k0 <;> simp [ainsert, alookup, h0, h1, ih]

theorem alookup_eq_none_of_not_mem {κ α : Type} [DecidableEq κ]
    (l : List (κ × α)) (k : κ) (h : k ∉ l.map Prod.fst) : alookup l k = none := by
  induction l with
  | nil => simp [alookup]
  | cons hd tl ih =>
      obtain ⟨k0, v0⟩ := hd
      simp only [List.map_cons, List.mem_cons, not_or] at h
      simp [alookup, h.1, ih h.2]

theorem alookup_aerase_self {κ α : Type} [DecidableEq κ]
    (l : List (κ × α)) (k : κ) (hnd : (l.map Prod.fst).Nodup) :
    alookup (aerase l k) k = none := by
  induction l with
  | nil => simp [aerase, alookup]
  | cons hd tl ih =>
      obtain ⟨k0, v0⟩ := hd
      simp only [List.map_cons, List.nodup_cons] at hnd
      by_cases h : k = k0
      · subst h
        simp only [aerase, if_pos rfl]
        exact alookup_eq_none_of_not_mem tl k hnd.1
      · simp [aerase, alookup, h, ih hnd.2]

theorem alookup_aerase_ne {κ α : Type} [DecidableEq κ]
    (l : List (κ × α)) (k k' : κ) (h : k' ≠ k) :
    alookup (aerase l k) k' = alookup l k' := by
  induction l with
  | nil => simp [aerase, alookup]
  | cons hd tl ih =>
      obtain ⟨k0, v0⟩ := hd
      by_cases h0 : k = k0
      · subst h0; simp [aerase, alookup, if_neg h]
      · by_cases h1 : k' = k0 <;> simp [aerase, alookup, h0, h1, ih]

theorem decodeVarint_encodeVarintAux : ∀ (fuel n : Nat), n ≤ fuel →
    ∀ rest : List Nat,
    decodeVarint (encodeVarintAux fuel n ++ rest) = some (n, rest) := by
  intro fuel
  induction fuel with
  | zero =>
      intro n hn rest
      have : n = 0 := by omega
      subst this
      simp [encodeVarintAux, decodeVarint]
  | succ fuel ih =>
      intro n hn rest
      by_cases h : n < 128
      · simp [encodeVarintAux, h, decodeVarint]
      · have hlt : n / 128 < n :=
          Nat.div_lt_self (by omega) (by norm_num)
        have hge : ¬ (n % 128 + 128 < 128) := by omega
        simp only [encodeVarintAux, if_neg h, List.cons_append, decodeVarint,
          if_neg hge, List.append_eq, ih (n / 128) (by omega)]
        have : n / 128 * 128 + (n % 128 + 128 - 128) = n := by omega
        rw [this]

theorem decodeVarint_encodeVarint (n : Nat) (rest : List Nat) :
    decodeVarint (encodeVarint n ++ rest) = some (n, rest) :=
  decodeVarint_encodeVarintAux n n (Nat.le_refl n) rest

theorem readBuf_writeBuf (b rest : List Nat) :
    readBuf (writeBuf b ++ rest) = some (b, rest) := by
  simp [readBuf, writeBuf, List.append_assoc, decodeVarint_encodeVarint,
    List.take_append, List.drop_append]

theorem decodeVarint_length : ∀ (l : List Nat) (n : Nat) (r : List Nat),
    decodeVarint l = some (n, r) → r.length < l.length := by
  intro l
  induction l with
  | nil => intro n r h; simp [decodeVarint] at h
  | cons b rest ih =>
      intro n r h
      simp only [decodeVarint] at h
      by_cases hb : b < 128
      · simp only [if_pos hb, Option.some.injEq, Prod.mk.injEq] at h
        simp [← h.2]
      · simp only [if_neg hb] at h
        cases hd : decodeVarint rest with
        | none => rw [hd] at h; simp at h
        | some p =>
            obtain ⟨m, r2⟩ := p
            rw [hd] at h
            simp only [Option.some.injEq, Prod.mk.injEq] at h
            obtain ⟨h1, h2⟩ := h
            rw [← h2]
            have := ih m r2 hd
            simp only [List.length_cons]
            omega

theorem readBuf_length (l b r : List Nat) (h : readBuf l = some (b, r)) :
    r.length < l.length := by
  simp only [readBuf] at h
  cases hd : decodeVarint l with
  | none => rw [hd] at h; simp at h
  | some p =>
      obtain ⟨n, r2⟩ := p
      rw [hd] at h
      by_cases hn : n ≤ r2.length
      · simp only [if_pos hn, Option.some.injEq, Prod.mk.injEq] at h
        have hlen := decodeVarint_length l n r2 hd
        have : r.length ≤ r2.length := by
          rw [← h.2]; simp
        omega
      · simp [if_neg hn] at h

theorem readVar_eq (l : List Nat) :
    readVar l = match decodeVarint l with
                | some (n, r) => DR.ok n r
                | none => DR.eob := by
  induction l with
  | nil => simp [readVar, decodeVarint]
  | cons b rest ih =>
      by_cases hb : b < 128
      · simp [readVar, decodeVarint, hb]
      · simp only [readVar, decodeVarint, if_neg hb, ih]
        cases decodeVarint rest with
        | none => simp
        | some p => obtain ⟨n, r⟩ := p; simp

theorem readBufD_eq (l : List Nat) :
    readBufD l = match readBuf l with
                 | some (b, r) => DR.ok b r
                 | none => DR.eob := by
  simp only [readBufD, readBuf, readVar_eq]
  cases decodeVarint l with
  | none => simp
  | some p =>
      obtain ⟨n, r⟩ := p
      by_cases hn : n ≤ r.length <;> simp [hn]

theorem readVar_ne_bad (l : List Nat) (r : List Nat) : readVar l ≠ .bad r := by
  rw [readVar_eq]
  cases decodeVarint l with
  | none => simp
  | some p => obtain ⟨n, r2⟩ := p; simp

theorem readVar_ok_length (l : List Nat) (n : Nat) (r : List Nat)
    (h : readVar l = .ok n r) : r.length < l.length := by
  rw [readVar_eq] at h
  cases hd : decodeVarint l with
  | none => rw [hd] at h; simp at h
  | some p =>
      obtain ⟨m, r2⟩ := p
      rw [hd] at h
      simp only [DR.ok.injEq] at h
      exact h.2 ▸ decodeVarint_length l m r2 hd

theorem readBufD_ok_length (l : List Nat) (b : List Nat) (r : List Nat)
    (h : readBufD l = .ok b r) : r.length < l.length := by
  rw [readBufD_eq] at h
  cases hd : readBuf l with
  | none => rw [hd] at h; simp at h
  | some p =>
      obtain ⟨b2, r2⟩ := p
      rw [hd] at h
      simp only [DR.ok.injEq] at h
      exact h.2 ▸ readBuf_length l b2 r2 hd

theorem readPairs_encode (sv : List (Nat × Nat)) (rest : List Nat) :
    readPairs sv.length
      (sv.flatMap (fun p => encodeVarint p.1 ++ encodeVarint p.2) ++ rest) =
    some (sv, rest) := by
  induction sv with
  | nil => simp [readPairs]
  | cons p tl ih =>
      obtain ⟨a, b⟩ := p
      simp [readPairs, List.flatMap_cons, List.append_assoc,
        decodeVarint_encodeVarint, ih]

theorem decodeSVContent_encode (sv : List (Nat × Nat)) :
    decodeSVContent (encodeSV sv) = some sv := by
  have h := readPairs_encode sv []
  rw [List.append_nil] at h
  simp [decodeSVContent, encodeSV, decodeVarint_encodeVarint, h]

theorem readAwEntries_encode (u : AwarenessUpdate) (rest : List Nat) :
    readAwEntries u.length
      (u.flatMap
        (fun e => encodeVarint e.client ++ encodeVarint e.clock ++ writeBuf e.json)
        ++ rest) =
    some (u, rest) := by
  induction u with
  | nil => simp [readAwEntries]
  | cons e tl ih =>
      obtain ⟨c, ck, j⟩ := e
      simp only [List.append_assoc] at ih
      simp [readAwEntries, List.flatMap_cons, decodeVarint_encodeVarint,
        readBuf_writeBuf, ih]

theorem decodeAwContent_encode (u : AwarenessUpdate) :
    decodeAwContent (encodeAwUpdate u) = some u := by
  have h := readAwEntries_encode u []
  rw [List.append_nil] at h
  simp only [List.append_assoc] at h
  simp [decodeAwContent, encodeAwUpdate, decodeVarint_encodeVarint, h]

theorem decodeMessage_encode (m : Message) (rest : List Nat)
    (h : msgTagOK m = true) :
    decodeMessage (encodeMessage m ++ rest) = .ok m rest := by
  cases m with
  | sync sm =>
      cases sm with
      | syncStep1 sv =>
          simp [encodeMessage, decodeMessage, readVar, readBufD_eq,
            List.append_assoc, readBuf_writeBuf, decodeSVContent_encode]
      | syncStep2 d =>
          simp [encodeMessage, decodeMessage, readVar, readBufD_eq,
            List.append_assoc, readBuf_writeBuf]
      | update d =>
          simp [encodeMessage, decodeMessage, readVar, readBufD_eq,
            List.append_assoc, readBuf_writeBuf]
  | awareness u =>
      simp [encodeMessage, decodeMessage, readVar, readBufD_eq,
        List.append_assoc, readBuf_writeBuf, decodeAwContent_encode]
  | auth r =>
      cases r with
      | some reason =>
          simp [encodeMessage, decodeMessage, readVar, readBufD_eq,
            List.append_assoc, readBuf_writeBuf]
      | none => simp [encodeMessage, decodeMessage, readVar]
  | awarenessQuery => simp [encodeMessage, decodeMessage, readVar]
  | custom tag data =>
      simp only [msgTagOK, decide_eq_true_eq] at h
      have h0 : tag ≠ 0 := by omega
      have h1 : tag ≠ 1 := by omega
      have h2 : tag ≠ 2 := by omega
      have h3 : tag ≠ 3 := by omega
      simp only [encodeMessage, decodeMessage, List.append_assoc,
        readVar_eq, decodeVarint_encodeVarint, readBufD_eq, readBuf_writeBuf,
        if_neg h0, if_neg h1, if_neg h2, if_neg h3]

theorem encodeVarintAux_ne_nil (fuel n : Nat) : encodeVarintAux fuel n ≠ [] := by
  cases fuel with
  | zero => simp [encodeVarintAux]
  | succ f => by_cases h : n < 128 <;> simp [encodeVarintAux, h]

theorem encodeMessage_ne_nil (m : Message) : encodeMessage m ≠ [] := by
  cases m with
  | sync sm => cases sm <;> simp [encodeMessage]
  | awareness u => simp [encodeMessage]
  | auth r => cases r <;> simp [encodeMessage]
  | awarenessQuery => simp [encodeMessage]
  | custom tag data =>
      simp only [encodeMessage]
      intro hc
      exact encodeVarintAux_ne_nil tag tag (List.append_eq_nil.mp hc).1

theorem decodeMessage_length (l : List Nat) :
    (∀ m r, decodeMessage l = .ok m r → r.length < l.length) ∧
    (∀ r, decodeMessage l = .bad r → r.length < l.length) := by
  unfold decodeMessage
  cases hv : readVar l with
  | eob => simp
  | bad r0 => exact absurd hv (readVar_ne_bad l r0)
  | ok tag r1 =>
  have H1 := readVar_ok_length l tag r1 hv
  by_cases h0 : tag = 0
  · simp only [if_pos h0]
    cases hv2 : readVar r1 with
    | eob => simp
    | bad r0 => exact absurd hv2 (readVar_ne_bad r1 r0)
    | ok sub r2 =>
    have H2 := readVar_ok_length r1 sub r2 hv2
    by_cases hs0 : sub = 0
    · simp only [if_pos hs0]
      cases hb : readBufD r2 with
      | eob => simp
      | bad rb => simp
      | ok buf r3 =>
      have H3 := readBufD_ok_length r2 buf r3 hb
      cases hsv : decodeSVContent buf with
      | none => simp [hsv]
      | some sv =>
          simp only [hsv]
          refine ⟨fun m r hok => ?_, fun r hbad => by simp at hbad⟩
          injection hok with hm hr
          subst hr
          omega
    · by_cases hs1 : sub = 1
      · simp only [if_neg hs0, if_pos hs1]
        cases hb : readBufD r2 with
        | eob => simp
        | bad rb => simp
        | ok buf r3 =>
        have H3 := readBufD_ok_length r2 buf r3 hb
        refine ⟨fun m r hok => ?_, fun r hbad => by simp at hbad⟩
        injection hok with hm hr
        subst hr
        omega
      · by_cases hs2 : sub = 2
        · simp only [if_neg hs0, if_neg hs1, if_pos hs2]
          cases hb : readBufD r2 with
          | eob => simp
          | bad rb => simp
          | ok buf r3 =>
          have H3 := readBufD_ok_length r2 buf r3 hb
          refine ⟨fun m r hok => ?_, fun r hbad => by simp at hbad⟩
          injection hok with hm hr
          subst hr
          omega
        · simp only [if_neg hs0, if_neg hs1, if_neg hs2]
          refine ⟨fun m r hok => by simp at hok, fun r hbad => ?_⟩
          injection hbad with hr
          subst hr
          omega
  · by_cases h1 : tag = 1
    · simp only [if_neg h0, if_pos h1]
      cases hb : readBufD r1 with
      | eob => simp
      | bad rb => simp
      | ok buf r2 =>
      have H2 := readBufD_ok_length r1 buf r2 hb
      cases hu : decodeAwContent buf with
      | none => simp [hu]
      | some u =>
          simp only [hu]
          refine ⟨fun m r hok => ?_, fun r hbad => by simp at hbad⟩
          injection hok with hm hr
          subst hr
          omega
    · by_cases h2 : tag = 2
      · simp only [if_neg h0, if_neg h1, if_pos h2]
        cases hv2 : readVar r1 with
        | eob => simp
        | bad r0 => exact absurd hv2 (readVar_ne_bad r1 r0)
        | ok sub r2 =>
        have H2 := readVar_ok_length r1 sub r2 hv2
        by_cases hs0 : sub = 0
        · simp only [if_pos hs0]
          cases hb : readBufD r2 with
          | eob => simp
          | bad rb => simp
          | ok buf r3 =>
          have H3 := readBufD_ok_length r2 buf r3 hb
          refine ⟨fun m r hok => ?_, fun r hbad => by simp at hbad⟩
          injection hok with hm hr
          subst hr
          omega
        · by_cases hs1 : sub = 1
          · simp only [if_neg hs0, if_pos hs1]
            refine ⟨fun m r hok => ?_, fun r hbad => by simp at hbad⟩
            injection hok with hm hr
            subst hr
            omega
          · simp only [if_neg hs0, if_neg hs1]
            refine ⟨fun m r hok => by simp at hok, fun r hbad => ?_⟩
            injection hbad with hr
            subst hr
            omega
      · by_cases h3 : tag = 3
        · simp only [if_neg h0, if_neg h1, if_neg h2, if_pos h3]
          refine ⟨fun m r hok => ?_, fun r hbad => by simp at hbad⟩
          injection hok with hm hr
          subst hr
          omega
        · simp only [if_neg h0, if_neg h1, if_neg h2, if_neg h3]
          cases hb : readBufD r1 with
          | eob => simp
          | bad rb => simp
          | ok buf r2 =>
          have H2 := readBufD_ok_length r1 buf r2 hb
          refine ⟨fun m r hok => ?_, fun r hbad => by simp at hbad⟩
          injection hok with hm hr
          subst hr
          omega

theorem decodeItemsF_fuel (f1 : Nat) : ∀ (f2 : Nat) (l : List Nat),
    l.length < f1 → l.length < f2 → decodeItemsF f1 l = decodeItemsF f2 l := by
  induction f1 with
  | zero => intro f2 l h1 _; omega
  | succ f1 ih =>
      intro f2 l h1 h2
      cases f2 with
      | zero => omega
      | succ f2 =>
          simp only [decodeItemsF]
          cases hd : decodeMessage l with
          | eob => rfl
          | ok m r =>
              have hr := (decodeMessage_length l).1 m r hd
              dsimp only
              rw [ih f2 r (by omega) (by omega)]
          | bad r =>
              have hr := (decodeMessage_length l).2 r hd
              dsimp only
              rw [ih f2 r (by omega) (by omega)]

theorem decodeItems_eq (l : List Nat) :
    decodeItems l =
      match decodeMessage l with
      | .eob => []
      | .ok m r => .ok m :: decodeItems r
      | .bad r => .err :: decodeItems r := by
  show decodeItemsF (l.length + 1) l = _
  simp only [decodeItemsF]
  cases hd : decodeMessage l with
  | eob => rfl
  | ok m r =>
      have hr := (decodeMessage_length l).1 m r hd
      dsimp only
      rw [decodeItemsF_fuel l.length (r.length + 1) r (by omega) (by omega)]
      rfl
  | bad r =>
      have hr := (decodeMessage_length l).2 r hd
      dsimp only
      rw [decodeItemsF_fuel l.length (r.length + 1) r (by omega) (by omega)]
      rfl

theorem decodeItems_nil : decodeItems [] = [] := by
  rw [decodeItems_eq]
  simp [decodeMessage, readVar]

theorem decodeItems_encodeList (msgs : List Message)
    (h : ∀ m ∈ msgs, msgTagOK m = true) :
    decodeItems (msgs.flatMap encodeMessage) = msgs.map .ok := by
  induction msgs with
  | nil => simp [decodeItems_nil]
  | cons m tl ih =>
      rw [List.flatMap_cons, decodeItems_eq,
        decodeMessage_encode m (tl.flatMap encodeMessage) (h m (by simp))]
      dsimp only
      rw [ih (fun m hm => h m (by simp [hm]))]
      simp

theorem decodeItems_bad_cons (l r : List Nat) (h : decodeMessage l = .bad r) :
    decodeItems l = .err :: decodeItems r := by
  rw [decodeItems_eq, h]

theorem decoderNew_toVec (v : ProtocolVersion) (usePfx : Bool) (p : List Nat)
    (msgs : List Message) (hne : msgs ≠ []) :
    decoderNew v usePfx (toVec v (if usePfx then some p else none) msgs) =
      some (if usePfx then some p else none, msgs.flatMap encodeMessage) := by
  have hempty : msgs.isEmpty = false := by
    cases msgs with
    | nil => exact absurd rfl hne
    | cons a b => rfl
  cases v <;> cases usePfx <;>
    simp [toVec, hempty, versionHeader, decoderNew, readBuf_writeBuf]

/-! ## Claim C4: settings resolution -/

/-- C4: for every room name and ordered prefix-configuration list, settings
resolution returns the settings of the first entry (in the supplied order)
whose prefix string is a literal prefix of the room name, and falls back to
the default settings exactly when no configured prefix matches (first
conjunct characterizes the result via `find?`, second states the no-match
fallback); in particular, with config [("docs:", V1)] and default V2, room
"docs:alpha" resolves to V1 and room "other" resolves to V2. -/
theorem c4_find_settings :
    (∀ (cfg : List (List Char × YRoomSettings)) (dflt : YRoomSettings)
        (room : List Char),
      findSettings cfg dflt room =
        match cfg.find? (fun e => e.1.isPrefixOf room) with
        | some e => e.2
        | none => dflt) ∧
    (∀ (cfg : List (List Char × YRoomSettings)) (dflt : YRoomSettings)
        (room : List Char),
      (∀ e ∈ cfg, ¬ e.1 <+: room) → findSettings cfg dflt room = dflt) ∧
    findSettings [("docs:".toList, v1Settings)] v2Settings "docs:alpha".toList
      = v1Settings ∧
    findSettings [("docs:".toList, v1Settings)] v2Settings "other".toList
      = v2Settings := by
  have h1 : ∀ (cfg : List (List Char × YRoomSettings)) (dflt : YRoomSettings)
      (room : List Char),
      findSettings cfg dflt room =
        match cfg.find? (fun e => e.1.isPrefixOf room) with
        | some e => e.2
        | none => dflt := by
    intro cfg dflt room
    induction cfg with
    | nil => rfl
    | cons e tl ih =>
        obtain ⟨p, s⟩ := e
        by_cases hp : p.isPrefixOf room
        · simp [findSettings, hp, List.find?_cons]
        · simp only [findSettings, List.find?_cons] at *
          simp only [Bool.not_eq_true] at hp
          simp [hp, ih]
  refine ⟨h1, ?_, by decide, by decide⟩
  intro cfg dflt room hnone
  rw [h1]
  have : cfg.find? (fun e => e.1.isPrefixOf room) = none := by
    rw [List.find?_eq_none]
    intro e he
    simpa [List.isPrefixOf_iff_prefix] using hnone e he
  rw [this]

/-- C4 witness: resolution on a room name matching no configured prefix
returns the default settings. -/
theorem c4_witness :
    findSettings [("docs:".toList, v1Settings)] v2Settings "xyz".toList
      = v2Settings :=
  c4_find_settings.2.1 [("docs:".toList, v1Settings)] v2Settings "xyz".toList
    (by decide)

/-! ## Claim C5: framing errors -/

/-- C5: for every input buffer whose decode fails at the framing/name-prefix
stage, handle_message processes zero messages — the room state (document and
presence included) is returned unchanged and both the private and the
broadcast payloads are empty. -/
theorem c5_framing_error (room : YRoom) (connId : Nat) (payload : List Nat)
    (h : decoderNew room.settings.protocol_version room.settings.namePfx payload
      = none) :
    room.handleMessage connId payload = (room, [], []) := by
  unfold YRoom.handleMessage
  rw [h]

/-- C5 witness: a room expecting a name prefix rejects the empty buffer at
the framing stage; handle_message returns the unchanged room and two empty
payloads. -/
theorem c5_witness :
    decoderNew pfxRoom.settings.protocol_version pfxRoom.settings.namePfx []
      = none ∧
    pfxRoom.handleMessage 0 [] = (pfxRoom, [], []) :=
  ⟨rfl, c5_framing_error pfxRoom 0 [] rfl⟩

/-! ## Claim C9: protocol-version configuration -/

/-- C9: configured protocol-version values 1 and 2 map to wire formats V1
and V2 respectively; any other value makes settings construction fail (the
`From<u8>` panic, a fatal configuration error raised when the settings are
first constructed, hence no later than room creation) — and settings
construction fails exactly when such an out-of-range version value was
supplied. -/
theorem c9_protocol_version_config :
    protocolVersionFromU8 1 = some .v1 ∧
    protocolVersionFromU8 2 = some .v2 ∧
    (∀ v, v ≠ 1 → v ≠ 2 → protocolVersionFromU8 v = none) ∧
    (∀ d : SettingsDict, extractSettings d = none ↔
      ∃ v, d.protocolVersionKey = some v ∧ v ≠ 1 ∧ v ≠ 2) := by
  refine ⟨rfl, rfl, ?_, ?_⟩
  · intro v h1 h2
    simp [protocolVersionFromU8, h1, h2]
  · intro d
    cases hk : d.protocolVersionKey with
    | none => simp [extractSettings, hk]
    | some v =>
        simp only [extractSettings, hk]
        by_cases h1 : v = 1
        · subst h1; simp [protocolVersionFromU8]
        · by_cases h2 : v = 2
          · subst h2; simp [protocolVersionFromU8]
          · simp [protocolVersionFromU8, h1, h2]

/-- C9 witness: the out-of-range version value 3 has no wire format and a
settings dictionary carrying it fails construction. -/
theorem c9_witness :
    protocolVersionFromU8 3 = none ∧
    extractSettings ⟨some 3, none, none⟩ = none :=
  ⟨c9_protocol_version_config.2.2.1 3 (by decide) (by decide),
    (c9_protocol_version_config.2.2.2 ⟨some 3, none, none⟩).mpr
      ⟨3, rfl, by decide, by decide⟩⟩

/-! ## Claim C10: lazy room creation on disconnect -/

/-- C10: calling the manager's disconnect for a room name not present in
the registry lazily creates the room as a side effect, so `has_room` is
true afterwards. -/
theorem c10_disconnect_creates_room (m : YRoomManager) (room : List Char)
    (connId : Nat) (h : m.hasRoom room = false) :
    (m.disconnect room connId).1.hasRoom room = true := by
  unfold YRoomManager.hasRoom at h ⊢
  unfold YRoomManager.disconnect YRoomManager.getRoom
  cases hl : alookup m.rooms room with
  | some r => rw [hl] at h; simp at h
  | none => simp [hl, alookup_ainsert_self]

/-- C10 witness: disconnecting an unknown connection from an unknown room
name on the empty manager creates that room. -/
theorem c10_witness :
    emptyManager.hasRoom ['a'] = false ∧
    (emptyManager.disconnect ['a'] 0).1.hasRoom ['a'] = true :=
  ⟨rfl, c10_disconnect_creates_room emptyManager ['a'] 0 rfl⟩

theorem alookup_aensure_self {κ α : Type} [DecidableEq κ]
    (l : List (κ × α)) (k : κ) (v : α) :
    (alookup (aensure l k v) k).isSome = true := by
  unfold aensure
  cases hl : alookup l k with
  | some w => simp [hl]
  | none =>
      induction l with
      | nil => simp [alookup]
      | cons hd tl ih =>
          obtain ⟨k0, v0⟩ := hd
          simp only [alookup] at hl
          by_cases h : k = k0
          · simp [h] at hl
          · simp only [if_neg h] at hl
            simpa [alookup, h] using ih hl

theorem alookup_aensure_ne {κ α : Type} [DecidableEq κ]
    (l : List (κ × α)) (k : κ) (v : α) (k' : κ) (h : k' ≠ k) :
    alookup (aensure l k v) k' = alookup l k' := by
  unfold aensure
  cases hl : alookup l k with
  | some w => rfl
  | none =>
      induction l with
      | nil => simp [alookup, h]
      | cons hd tl ih =>
          obtain ⟨k0, v0⟩ := hd
          simp only [alookup] at hl
          by_cases h0 : k = k0
          · simp [h0] at hl
          · simp only [if_neg h0] at hl
            by_cases h1 : k' = k0 <;> simp [alookup, List.cons_append, h1, ih hl]

/-! ## Claim C3: codec round-trip -/

/-- C3 counterexample: the round-trip fails as literally stated.  On the
empty message list with a name prefix in use, encoding yields zero bytes —
the encoder returns early before writing the prefix — and decoding those
zero bytes with a prefix expected fails at the framing/name-prefix stage;
and a Custom message reusing the reserved tag 0 does not decode back to
itself. -/
theorem c3_counterexample :
    (toVec .v1 (some [97]) [] = [] ∧
      decoderNew .v1 true (toVec .v1 (some [97]) []) = none) ∧
    decodeItems ([Message.custom 0 []].flatMap encodeMessage) ≠
      [.ok (Message.custom 0 [])] := by
  refine ⟨⟨rfl, rfl⟩, ?_⟩
  decide

/-- C3 (amended): for every NON-EMPTY finite list of protocol messages
whose Custom messages use type tags outside the reserved range, for each
wire format and for both presence and absence of the name prefix, decoding
the encoding with matching format and prefix expectation succeeds and
yields exactly the original message list, in order, with no decode
errors. -/
theorem c3_roundtrip (v : ProtocolVersion) (usePfx : Bool) (p : List Nat)
    (msgs : List Message) (hne : msgs ≠ [])
    (htags : ∀ m ∈ msgs, msgTagOK m = true) :
    ∃ body,
      decoderNew v usePfx (toVec v (if usePfx then some p else none) msgs) =
        some (if usePfx then some p else none, body) ∧
      decodeItems body = msgs.map .ok :=
  ⟨msgs.flatMap encodeMessage, decoderNew_toVec v usePfx p msgs hne,
    decodeItems_encodeList msgs htags⟩

/-- C3 witness: a one-message batch round-trips through the V2 format with
a name prefix. -/
theorem c3_witness :
    ∃ body,
      decoderNew .v2 true (toVec .v2 (some [97]) [Message.awarenessQuery]) =
        some (some [97], body) ∧
      decodeItems body = [.ok .awarenessQuery] := by
  simpa using
    c3_roundtrip .v2 true [97] [Message.awarenessQuery] (by decide) (by decide)

/-! ## Claim C6: per-message decode errors are non-fatal -/

/-- C6: a per-message decode failure after a successful framing stage does
not terminate the decode sequence or the dispatch loop: in general the
decoder yields an error item for the failing message and continues at the
position it reports (first conjunct); concretely, a batch beginning with a
malformed sync submessage decodes to an error item followed by all
remaining messages (second conjunct), and handle_message on such a batch
still dispatches every remaining message, producing exactly the state and
outputs of dispatching the batch without the bad message (third conjunct,
for a room with default V1/no-prefix settings). -/
theorem c6_bad_message_nonfatal (room : YRoom) (connId : Nat)
    (msgs : List Message)
    (hset : room.settings = defaultSettings)
    (htags : ∀ m ∈ msgs, msgTagOK m = true) :
    (∀ l r, decodeMessage l = .bad r → decodeItems l = .err :: decodeItems r) ∧
    decodeItems ([0, 3] ++ msgs.flatMap encodeMessage) =
      .err :: msgs.map .ok ∧
    room.handleMessage connId ([0, 3] ++ msgs.flatMap encodeMessage) =
      (let s := dispatchItems room connId (msgs.map .ok)
       (s.1, toVec .v1 none s.2.1, toVec .v1 none s.2.2)) := by
  have hbad : ∀ rest : List Nat,
      decodeMessage ([0, 3] ++ rest) = .bad rest := by
    intro rest
    rfl
  have hitems : decodeItems ([0, 3] ++ msgs.flatMap encodeMessage) =
      .err :: msgs.map .ok := by
    rw [decodeItems_bad_cons _ _ (hbad _), decodeItems_encodeList msgs htags]
  refine ⟨fun l r h => decodeItems_bad_cons l r h, hitems, ?_⟩
  unfold YRoom.handleMessage
  rw [hset]
  show (let s := dispatchItems room connId
          (decodeItems ([0, 3] ++ msgs.flatMap encodeMessage))
        (s.1, toVec .v1 none s.2.1, toVec .v1 none s.2.2)) = _
  rw [hitems]
  rfl

/-- C6 witness: a bad first message followed by an awareness query is
handled exactly like the query alone. -/
theorem c6_witness :
    (newRoom defaultSettings).handleMessage 0
        ([0, 3] ++ [Message.awarenessQuery].flatMap encodeMessage) =
      (let s := dispatchItems (newRoom defaultSettings) 0
          ([Message.awarenessQuery].map .ok)
       (s.1, toVec .v1 none s.2.1, toVec .v1 none s.2.2)) :=
  (c6_bad_message_nonfatal (newRoom defaultSettings) 0 [Message.awarenessQuery]
    rfl (by decide)).2.2

/-! ## Claim C7: update echo -/

/-- C7: an Update message whose diff decodes successfully is applied to the
document (the new state carries the decoded update appended before the echo
is produced) and echoed verbatim — the broadcast payload equals the input
payload byte for byte, hence decodes to the single identical Update message
— while the private payload is empty; an Update whose diff fails to decode
changes nothing and produces no broadcast output. -/
theorem c7_update_echo (room : YRoom) (connId : Nat) (d : List Nat)
    (p : List Nat) :
    (∀ u, docUpdateDecodeV1 d = some u →
      room.handleMessage connId
          (toVec room.settings.protocol_version
            (if room.settings.namePfx then some p else none)
            [.sync (.update d)]) =
        ({ room with doc := room.doc ++ [u] }, [],
          toVec room.settings.protocol_version
            (if room.settings.namePfx then some p else none)
            [.sync (.update d)])) ∧
    (docUpdateDecodeV1 d = none →
      room.handleMessage connId
          (toVec room.settings.protocol_version
            (if room.settings.namePfx then some p else none)
            [.sync (.update d)]) =
        (room, [], [])) := by
  have htags : ∀ m ∈ [Message.sync (.update d)], msgTagOK m = true := by
    intro m hm
    rw [List.mem_singleton] at hm
    subst hm
    rfl
  have hdec :
      YRoom.handleMessage room connId
          (toVec room.settings.protocol_version
            (if room.settings.namePfx then some p else none)
            [.sync (.update d)]) =
        (let s := dispatchItems room connId
            (decodeItems ([Message.sync (.update d)].flatMap encodeMessage))
         (s.1,
          toVec room.settings.protocol_version
            (if room.settings.namePfx then some p else none) s.2.1,
          toVec room.settings.protocol_version
            (if room.settings.namePfx then some p else none) s.2.2)) := by
    unfold YRoom.handleMessage
    rw [decoderNew_toVec room.settings.protocol_version room.settings.namePfx p
      [Message.sync (.update d)] (by simp)]
  rw [decodeItems_encodeList _ htags] at hdec
  constructor
  · intro u hu
    rw [hdec]
    show (let s := (let s1 := dispatchOne room connId (.sync (.update d))
                    let s2 := dispatchItems s1.1 connId []
                    (s2.1, s1.2.1 ++ s2.2.1, s1.2.2 ++ s2.2.2))
          (s.1, toVec _ _ s.2.1, toVec _ _ s.2.2)) = _
    simp only [dispatchOne, dispatchItems, hu]
    rfl
  · intro hu
    rw [hdec]
    show (let s := (let s1 := dispatchOne room connId (.sync (.update d))
                    let s2 := dispatchItems s1.1 connId []
                    (s2.1, s1.2.1 ++ s2.2.1, s1.2.2 ++ s2.2.2))
          (s.1, toVec _ _ s.2.1, toVec _ _ s.2.2)) = _
    simp only [dispatchOne, dispatchItems, hu]
    rfl

/-- C7 witness: on a fresh default room, a decodable update is applied and
echoed verbatim on the broadcast channel, and an undecodable update (the
truncated blob `[5]`) is dropped without any output. -/
theorem c7_witness :
    docUpdateDecodeV1 (writeBuf [7]) = some [7] ∧
    (newRoom defaultSettings).handleMessage 1
        (toVec .v1 none [.sync (.update (writeBuf [7]))]) =
      ({ newRoom defaultSettings with doc := [[7]] }, [],
        toVec .v1 none [.sync (.update (writeBuf [7]))]) ∧
    docUpdateDecodeV1 [5] = none ∧
    (newRoom defaultSettings).handleMessage 1 (toVec .v1 none [.sync (.update [5])]) =
      (newRoom defaultSettings, [], []) := by
  refine ⟨by decide, ?_, by decide, ?_⟩
  · exact (c7_update_echo (newRoom defaultSettings) 1 (writeBuf [7]) []).1 [7]
      (by decide)
  · exact (c7_update_echo (newRoom defaultSettings) 1 [5] []).2 (by decide)

/-! ## Claim C8: connect with server-start-sync -/

/-- C8: when the room's settings have autoStartSyncOnConnect
(server_start_sync) set, connect ensures a (possibly empty) connection
entry and returns a private payload that decodes (it carries no name
prefix) to a SyncStep1 with the document's own current state vector —
which is the empty state vector for an empty document — followed by a full
presence snapshot exactly when at least one presence entry exists; the
broadcast payload is always empty. -/
theorem c8_connect (room : YRoom) (connId : Nat)
    (h : room.settings.server_start_sync = true) :
    (room.connect connId).2.2 = [] ∧
    (alookup (room.connect connId).1.connections connId).isSome = true ∧
    (∃ body,
      decoderNew room.settings.protocol_version false (room.connect connId).2.1 =
        some (none, body) ∧
      decodeItems body =
        .ok (Message.sync (.syncStep1 (docStateVector room.doc))) ::
          (if room.aw.clients.isEmpty then []
           else [.ok (Message.awareness (awFullUpdate room.aw))])) ∧
    (room.doc = [] → docStateVector room.doc = []) := by
  refine ⟨rfl, ?_, ?_, ?_⟩
  · exact alookup_aensure_self room.connections connId []
  · have hmsgs :
        (room.connect connId).2.1 =
          toVec room.settings.protocol_version none
            ([Message.sync (.syncStep1 (docStateVector room.doc))] ++
              (if room.aw.clients.isEmpty then []
               else [Message.awareness (awFullUpdate room.aw)])) := by
      unfold YRoom.connect
      rw [h]
      simp
    set msgs :=
      [Message.sync (.syncStep1 (docStateVector room.doc))] ++
        (if room.aw.clients.isEmpty then []
         else [Message.awareness (awFullUpdate room.aw)]) with hm
    have hne : msgs ≠ [] := by
      rw [hm]
      simp
    have htags : ∀ m ∈ msgs, msgTagOK m = true := by
      intro m hmem
      rw [hm] at hmem
      rcases List.mem_append.mp hmem with h1 | h2
      · rw [List.mem_singleton] at h1
        subst h1
        rfl
      · split at h2
        · simp at h2
        · rw [List.mem_singleton] at h2
          subst h2
          rfl
    refine ⟨msgs.flatMap encodeMessage, ?_, ?_⟩
    · rw [hmsgs]
      have := decoderNew_toVec room.settings.protocol_version false [] msgs hne
      simpa using this
    · rw [decodeItems_encodeList msgs htags, hm]
      by_cases hif : room.aw.clients.isEmpty = true <;> simp [hif]
  · intro hd
    rw [hd]
    rfl

/-- C8 witness: connecting to a fresh default room yields an empty
broadcast, a connection entry, and a private payload decoding to a single
SyncStep1 with the empty state vector. -/
theorem c8_witness :
    ((newRoom defaultSettings).connect 5).2.2 = [] ∧
    (alookup ((newRoom defaultSettings).connect 5).1.connections 5).isSome = true ∧
    (∃ body,
      decoderNew .v1 false ((newRoom defaultSettings).connect 5).2.1 =
        some (none, body) ∧
      decodeItems body = [.ok (Message.sync (.syncStep1 []))]) := by
  have h := c8_connect (newRoom defaultSettings) 5 rfl
  refine ⟨h.1, h.2.1, ?_⟩
  simpa using h.2.2.1

/-! ## Claim C1: disconnect -/

theorem foldl_awRemoveState_states : ∀ (owned : List Nat) (aw : Awareness),
    (owned.foldl awRemoveState aw).states = owned.foldl aerase aw.states := by
  intro owned
  induction owned with
  | nil => intro aw; rfl
  | cons e rest ih =>
      intro aw
      simp only [List.foldl_cons]
      rw [ih]
      rfl

theorem aerase_keys_sublist {κ α : Type} [DecidableEq κ]
    (l : List (κ × α)) (k : κ) :
    ((aerase l k).map Prod.fst).Sublist (l.map Prod.fst) := by
  induction l with
  | nil => simp [aerase]
  | cons hd tl ih =>
      obtain ⟨k0, v0⟩ := hd
      by_cases h : k = k0
      · simp only [aerase, if_pos h, List.map_cons]
        exact (List.sublist_cons_self _ _)
      · simp only [aerase, if_neg h, List.map_cons]
        exact ih.cons₂ k0

theorem aerase_keys_nodup {κ α : Type} [DecidableEq κ]
    (l : List (κ × α)) (k : κ) (h : (l.map Prod.fst).Nodup) :
    ((aerase l k).map Prod.fst).Nodup :=
  h.sublist (aerase_keys_sublist l k)

theorem alookup_aerase_of_none {κ α : Type} [DecidableEq κ]
    (l : List (κ × α)) (k c : κ) (h : alookup l c = none) :
    alookup (aerase l k) c = none := by
  induction l with
  | nil => simp [aerase, alookup]
  | cons hd tl ih =>
      obtain ⟨k0, v0⟩ := hd
      simp only [alookup] at h
      by_cases hc : c = k0
      · simp [hc] at h
      · simp only [if_neg hc] at h
        by_cases hk : k = k0
        · simpa [aerase, hk] using h
        · simpa [aerase, alookup, hk, hc] using ih h

theorem alookup_foldl_aerase_of_none {κ α : Type} [DecidableEq κ] :
    ∀ (ks : List κ) (st : List (κ × α)) (c : κ),
    alookup st c = none → alookup (ks.foldl aerase st) c = none := by
  intro ks
  induction ks with
  | nil => intro st c h; exact h
  | cons e rest ih =>
      intro st c h
      simp only [List.foldl_cons]
      exact ih (aerase st e) c (alookup_aerase_of_none st e c h)

theorem alookup_foldl_aerase {κ α : Type} [DecidableEq κ] :
    ∀ (ks : List κ) (st : List (κ × α)),
    (st.map Prod.fst).Nodup → ∀ c ∈ ks, alookup (ks.foldl aerase st) c = none := by
  intro ks
  induction ks with
  | nil => intro st _ c hc; simp at hc
  | cons e rest ih =>
      intro st hnd c hc
      simp only [List.foldl_cons]
      rcases List.mem_cons.mp hc with he | hr
      · subst he
        by_cases hmem : c ∈ rest
        · exact ih (aerase st c) (aerase_keys_nodup st c hnd) c hmem
        · exact alookup_foldl_aerase_of_none rest (aerase st c) c
            (alookup_aerase_self st c hnd)
      · exact ih (aerase st e) (aerase_keys_nodup st e hnd) c hr

/-- C1 counterexample: in a room where connection 1 owns client 10 and
connection 2 owns exactly client 20, disconnecting connection 2 returns a
broadcast that decodes to an Awareness message covering clients 10 and 20
— the full presence state — not one reflecting exactly the removed client
id 20. -/
theorem c1_counterexample :
    alookup c1Room.connections 2 = some [20] ∧
    decodeItems ((c1Room.disconnect 2).2) =
      [.ok (.awareness [⟨10, 1, jsonA⟩, ⟨20, 2, nullBytes⟩])] ∧
    ([(⟨10, 1, jsonA⟩ : AwWireEntry), ⟨20, 2, nullBytes⟩].map AwWireEntry.client)
      ≠ [20] := by
  refine ⟨rfl, ?_, by decide⟩
  decide

/-- C1 (amended): after `disconnect(connectionId)`, every client id that
was in the connection's owned set has been removed from the presence
store, the connection's table entry is removed, the manager-level
disconnect returns an empty private payload, and the broadcast payload
decodes (it carries no name prefix) to a single Awareness message carrying
the full presence snapshot of the post-removal store — in which every
removed client id appears with a null state — rather than an update
covering only the removed client ids. -/
theorem c1_disconnect (room : YRoom) (connId : Nat)
    (hstates : (room.aw.states.map Prod.fst).Nodup)
    (hconns : (room.connections.map Prod.fst).Nodup) :
    (∀ c ∈ (alookup room.connections connId).getD [],
      alookup (room.disconnect connId).1.aw.states c = none) ∧
    alookup (room.disconnect connId).1.connections connId = none ∧
    (∀ (m : YRoomManager) (name : List Char) (cid : Nat),
      (m.disconnect name cid).2.1 = []) ∧
    (∃ body,
      decoderNew room.settings.protocol_version false (room.disconnect connId).2 =
        some (none, body) ∧
      decodeItems body =
        [.ok (.awareness (awFullUpdate (room.disconnect connId).1.aw))]) ∧
    (∀ c ∈ (alookup room.connections connId).getD [],
      ∀ e ∈ awFullUpdate (room.disconnect connId).1.aw,
        e.client = c → e.json = nullBytes) := by
  have hstEq : (room.disconnect connId).1.aw.states =
      ((alookup room.connections connId).getD []).foldl aerase room.aw.states := by
    show (((alookup room.connections connId).getD []).foldl awRemoveState
      room.aw).states = _
    exact foldl_awRemoveState_states _ room.aw
  have h1 : ∀ c ∈ (alookup room.connections connId).getD [],
      alookup (room.disconnect connId).1.aw.states c = none := by
    intro c hc
    rw [hstEq]
    exact alookup_foldl_aerase _ room.aw.states hstates c hc
  refine ⟨h1, ?_, fun m name cid => rfl, ?_, ?_⟩
  · exact alookup_aerase_self room.connections connId hconns
  · refine ⟨[Message.awareness (awFullUpdate (room.disconnect connId).1.aw)].flatMap
      encodeMessage, ?_, ?_⟩
    · have := decoderNew_toVec room.settings.protocol_version false []
        [Message.awareness (awFullUpdate (room.disconnect connId).1.aw)] (by simp)
      simpa using this
    · have htag : ∀ m ∈ [Message.awareness (awFullUpdate (room.disconnect connId).1.aw)],
          msgTagOK m = true := by
        intro m hm
        rw [List.mem_singleton] at hm
        subst hm
        rfl
      exact decodeItems_encodeList _ htag
  · intro c hc e he hec
    obtain ⟨p, hp, hpe⟩ := List.mem_map.mp he
    have hj : e.json = (alookup (room.disconnect connId).1.aw.states p.1).getD
        nullBytes := by
      rw [← hpe]
    have hcl : p.1 = c := by
      rw [← hec, ← hpe]
    rw [hj, hcl, h1 c hc]
    rfl

/-- C1 witness: in the two-connection scenario room, disconnecting
connection 2 removes client 20 from the presence store and drops the
connection's table entry. -/
theorem c1_witness :
    alookup (c1Room.disconnect 2).1.aw.states 20 = none ∧
    alookup (c1Room.disconnect 2).1.connections 2 = none := by
  have h := c1_disconnect c1Room 2 (by decide) (by decide)
  exact ⟨h.1 20 (by decide), h.2.1⟩

/-! ## Claim C2: supporting lemmas -/

theorem alookup_isSome_of_mem_keys {κ α : Type} [DecidableEq κ]
    (l : List (κ × α)) (k : κ) (h : k ∈ l.map Prod.fst) :
    (alookup l k).isSome = true := by
  induction l with
  | nil => simp at h
  | cons hd tl ih =>
      obtain ⟨k0, v0⟩ := hd
      rcases List.mem_cons.mp h with h0 | h0
      · simp [alookup, h0]
      · by_cases hk : k = k0
        · simp [alookup, hk]
        · simpa [alookup, hk] using ih h0

theorem alookup_append_of_none {κ α : Type} [DecidableEq κ]
    (l l2 : List (κ × α)) (c : κ) (h : alookup l c = none) :
    alookup (l ++ l2) c = alookup l2 c := by
  induction l with
  | nil => rfl
  | cons hd tl ih =>
      obtain ⟨k0, v0⟩ := hd
      simp only [alookup] at h
      by_cases hc : c = k0
      · simp [hc] at h
      · simp only [if_neg hc] at h
        simpa [alookup, hc] using ih h

theorem alookup_aensure_eq {κ α : Type} [DecidableEq κ]
    (l : List (κ × α)) (k : κ) (v : α) :
    alookup (aensure l k v) k = some ((alookup l k).getD v) := by
  unfold aensure
  cases hl : alookup l k with
  | some w => simp [hl]
  | none =>
      rw [alookup_append_of_none l [(k, v)] k hl]
      simp [alookup]

theorem aensure_keys_nodup {κ α : Type} [DecidableEq κ]
    (l : List (κ × α)) (k : κ) (v : α) (h : (l.map Prod.fst).Nodup) :
    ((aensure l k v).map Prod.fst).Nodup := by
  unfold aensure
  cases hl : alookup l k with
  | some w => exact h
  | none =>
      rw [List.map_append]
      rw [List.nodup_append]
      refine ⟨h, by simp, ?_⟩
      intro a ha hb
      simp only [List.map_cons, List.map_nil, List.mem_singleton] at hb
      subst hb
      have := alookup_isSome_of_mem_keys l a ha
      rw [hl] at this
      simp at this

theorem mem_keys_ainsert {κ α : Type} [DecidableEq κ]
    (l : List (κ × α)) (k : κ) (v : α) (c : κ)
    (h : c ∈ (ainsert l k v).map Prod.fst) : c ∈ l.map Prod.fst ∨ c = k := by
  induction l with
  | nil => simpa [ainsert] using h
  | cons hd tl ih =>
      obtain ⟨k0, v0⟩ := hd
      by_cases hk : k = k0
      · subst hk
        simp only [ainsert, if_pos rfl, List.map_cons] at h
        rcases List.mem_cons.mp h with h0 | h0
        · exact Or.inl (by simp [h0])
        · exact Or.inl (by simp [h0])
      · simp only [ainsert, if_neg hk, List.map_cons] at h
        rcases List.mem_cons.mp h with h0 | h0
        · exact Or.inl (by simp [h0])
        · rcases ih h0 with h1 | h1
          · exact Or.inl (by simp [h1])
          · exact Or.inr h1

theorem ainsert_keys_nodup {κ α : Type} [DecidableEq κ]
    (l : List (κ × α)) (k : κ) (v : α) (h : (l.map Prod.fst).Nodup) :
    ((ainsert l k v).map Prod.fst).Nodup := by
  induction l with
  | nil => simp [ainsert]
  | cons hd tl ih =>
      obtain ⟨k0, v0⟩ := hd
      simp only [List.map_cons, List.nodup_cons] at h
      by_cases hk : k = k0
      · subst hk
        simp only [ainsert, ↓reduceIte, List.map_cons, List.nodup_cons]
        exact h
      · simp only [ainsert, if_neg hk, List.map_cons, List.nodup_cons]
        refine ⟨?_, ih h.2⟩
        intro hmem
        rcases mem_keys_ainsert tl k v k0 hmem with h1 | h1
        · exact h.1 h1
        · exact hk h1.symm

theorem mem_ninsert (s : List Nat) (x c : Nat) :
    c ∈ ninsert s x ↔ c ∈ s ∨ c = x := by
  unfold ninsert
  by_cases h : x ∈ s
  · simp only [if_pos h]
    constructor
    · exact Or.inl
    · rintro (hc | rfl)
      · exact hc
      · exact h
  · simp [if_neg h]

theorem mem_foldl_ninsert : ∀ (ks s : List Nat) (c : Nat),
    c ∈ ks.foldl ninsert s → c ∈ s ∨ c ∈ ks := by
  intro ks
  induction ks with
  | nil => intro s c h; exact Or.inl h
  | cons k rest ih =>
      intro s c h
      simp only [List.foldl_cons] at h
      rcases ih (ninsert s k) c h with h1 | h1
      · rcases (mem_ninsert s k c).mp h1 with h2 | h2
        · exact Or.inl h2
        · exact Or.inr (by simp [h2])
      · exact Or.inr (by simp [h1])

theorem mem_foldl_nerase : ∀ (ks s : List Nat) (c : Nat),
    c ∈ ks.foldl nerase s → c ∈ s := by
  intro ks
  induction ks with
  | nil => intro s c h; exact h
  | cons k rest ih =>
      intro s c h
      simp only [List.foldl_cons] at h
      have := ih (nerase s k) c h
      exact List.mem_of_mem_filter this

theorem applyOwned_mem (owned added removed : List Nat) (c : Nat)
    (h : c ∈ applyOwned owned added removed) : c ∈ owned ∨ c ∈ added :=
  mem_foldl_ninsert added owned c (mem_foldl_nerase removed _ c h)

theorem awApplyEntry_meta (aw : Awareness) (e : AwWireEntry) :
    (awApplyEntry aw e).1.meta = aw.meta ∨
    ∃ ck, (awApplyEntry aw e).1.meta = ainsert aw.meta e.client ck := by
  unfold awApplyEntry
  cases hm : alookup aw.meta e.client with
  | some prevClock =>
      dsimp only
      split
      · split
        · split
          · exact Or.inr ⟨e.clock + 1, rfl⟩
          · exact Or.inr ⟨e.clock, rfl⟩
        · exact Or.inr ⟨e.clock, rfl⟩
      · exact Or.inl rfl
  | none =>
      dsimp only
      split
      · exact Or.inr ⟨e.clock, rfl⟩
      · exact Or.inr ⟨e.clock, rfl⟩

theorem awApplyEntry_added (aw : Awareness) (e : AwWireEntry) :
    (awApplyEntry aw e).2.1 = [] ∨
    ((awApplyEntry aw e).2.1 = [e.client] ∧ alookup aw.meta e.client = none ∧
      (awApplyEntry aw e).1.meta = ainsert aw.meta e.client e.clock) := by
  unfold awApplyEntry
  cases hm : alookup aw.meta e.client with
  | some prevClock =>
      dsimp only
      split
      · split
        · split
          · exact Or.inl rfl
          · exact Or.inl rfl
        · exact Or.inl rfl
      · exact Or.inl rfl
  | none =>
      dsimp only
      split
      · exact Or.inl rfl
      · exact Or.inr ⟨rfl, rfl, rfl⟩

theorem awApplyEntry_meta_mono (aw : Awareness) (e : AwWireEntry) (c : Nat)
    (h : (alookup aw.meta c).isSome = true) :
    (alookup (awApplyEntry aw e).1.meta c).isSome = true := by
  rcases awApplyEntry_meta aw e with hs | ⟨ck, hs⟩
  · rw [hs]; exact h
  · rw [hs]
    by_cases hc : c = e.client
    · subst hc
      rw [alookup_ainsert_self]
      rfl
    · rw [alookup_ainsert_ne _ _ _ _ hc]
      exact h

theorem awApplyUpdate_meta_mono : ∀ (wu : AwarenessUpdate) (aw : Awareness)
    (c : Nat), (alookup aw.meta c).isSome = true →
    (alookup (awApplyUpdate aw wu).1.meta c).isSome = true := by
  intro wu
  induction wu with
  | nil => intro aw c h; exact h
  | cons e rest ih =>
      intro aw c h
      exact ih (awApplyEntry aw e).1 c (awApplyEntry_meta_mono aw e c h)

theorem awApplyUpdate_added : ∀ (wu : AwarenessUpdate) (aw : Awareness)
    (c : Nat), c ∈ (awApplyUpdate aw wu).2.1 →
    alookup aw.meta c = none ∧
    (alookup (awApplyUpdate aw wu).1.meta c).isSome = true := by
  intro wu
  induction wu with
  | nil => intro aw c hc; simp [awApplyUpdate] at hc
  | cons e rest ih =>
      intro aw c hc
      have hsplit : (awApplyUpdate aw (e :: rest)).2.1 =
          (awApplyEntry aw e).2.1 ++ (awApplyUpdate (awApplyEntry aw e).1 rest).2.1 :=
        rfl
      have hmeta : (awApplyUpdate aw (e :: rest)).1 =
          (awApplyUpdate (awApplyEntry aw e).1 rest).1 := rfl
      rw [hsplit] at hc
      rw [hmeta]
      rcases List.mem_append.mp hc with h1 | h2
      · rcases awApplyEntry_added aw e with ha | ⟨ha, hnone, hins⟩
        · rw [ha] at h1; simp at h1
        · rw [ha, List.mem_singleton] at h1
          subst h1
          refine ⟨hnone, ?_⟩
          apply awApplyUpdate_meta_mono
          rw [hins, alookup_ainsert_self]
          rfl
      · have hrest := ih (awApplyEntry aw e).1 c h2
        refine ⟨?_, hrest.2⟩
        cases hl : alookup aw.meta c with
        | none => rfl
        | some x =>
            have := awApplyEntry_meta_mono aw e c (by rw [hl]; rfl)
            rw [hrest.1] at this
            simp at this

theorem awRemoveState_meta_mono (aw : Awareness) (k c : Nat)
    (h : (alookup aw.meta c).isSome = true) :
    (alookup (awRemoveState aw k).meta c).isSome = true := by
  unfold awRemoveState
  cases hl : alookup aw.meta k with
  | none => exact h
  | some ck =>
      dsimp only
      by_cases hc : c = k
      · subst hc
        rw [alookup_ainsert_self]
        rfl
      · rw [alookup_ainsert_ne _ _ _ _ hc]
        exact h

theorem foldl_awRemoveState_meta_mono : ∀ (ks : List Nat) (aw : Awareness)
    (c : Nat), (alookup aw.meta c).isSome = true →
    (alookup (ks.foldl awRemoveState aw).meta c).isSome = true := by
  intro ks
  induction ks with
  | nil => intro aw c h; exact h
  | cons k rest ih =>
      intro aw c h
      exact ih (awRemoveState aw k) c (awRemoveState_meta_mono aw k c h)

theorem connInv_dispatchOne (room : YRoom) (connId : Nat) (m : Message)
    (h : ConnInv room) : ConnInv (dispatchOne room connId m).1 := by
  obtain ⟨hnd, hmeta, huniq⟩ := h
  cases m with
  | sync sm =>
      cases sm with
      | syncStep1 sv => exact ⟨hnd, hmeta, huniq⟩
      | syncStep2 data =>
          unfold dispatchOne
          dsimp only
          split <;> exact ⟨hnd, hmeta, huniq⟩
      | update data =>
          unfold dispatchOne
          dsimp only
          split <;> exact ⟨hnd, hmeta, huniq⟩
  | auth r => exact ⟨hnd, hmeta, huniq⟩
  | awarenessQuery => exact ⟨hnd, hmeta, huniq⟩
  | custom tag data => exact ⟨hnd, hmeta, huniq⟩
  | awareness wu =>
      show ConnInv
        { room with
          aw := (awApplyUpdate room.aw wu).1
          connections :=
            ainsert (aensure room.connections connId []) connId
              (applyOwned
                ((alookup (aensure room.connections connId []) connId).getD [])
                (awApplyUpdate room.aw wu).2.1 (awApplyUpdate room.aw wu).2.2) }
      have hnd0 := aensure_keys_nodup room.connections connId [] hnd
      have howda :
          (alookup (aensure room.connections connId []) connId).getD [] =
            (alookup room.connections connId).getD [] := by
        rw [alookup_aensure_eq]
        rfl
      have howmem : ∀ c,
          c ∈ (alookup (aensure room.connections connId []) connId).getD [] →
          ∃ s0, alookup room.connections connId = some s0 ∧ c ∈ s0 := by
        intro c hc
        rw [howda] at hc
        cases hl : alookup room.connections connId with
        | some s0 =>
            rw [hl] at hc
            exact ⟨s0, rfl, hc⟩
        | none =>
            rw [hl] at hc
            simp at hc
      have hlook : ∀ j,
          alookup
            (ainsert (aensure room.connections connId []) connId
              (applyOwned
                ((alookup (aensure room.connections connId []) connId).getD [])
                (awApplyUpdate room.aw wu).2.1 (awApplyUpdate room.aw wu).2.2)) j =
          if j = connId then
            some (applyOwned
              ((alookup (aensure room.connections connId []) connId).getD [])
              (awApplyUpdate room.aw wu).2.1 (awApplyUpdate room.aw wu).2.2)
          else alookup room.connections j := by
        intro j
        by_cases hj : j = connId
        · subst hj
          simp [alookup_ainsert_self]
        · rw [if_neg hj, alookup_ainsert_ne _ _ _ _ hj,
            alookup_aensure_ne _ _ _ _ hj]
      refine ⟨ainsert_keys_nodup _ _ _ hnd0, ?_, ?_⟩
      · intro j s hjs c hcs
        rw [hlook j] at hjs
        by_cases hj : j = connId
        · rw [if_pos hj] at hjs
          injection hjs with hs
          subst hs
          rcases applyOwned_mem _ _ _ c hcs with hcow | hcadd
          · obtain ⟨s0, hl0, hc0⟩ := howmem c hcow
            exact awApplyUpdate_meta_mono wu room.aw c (hmeta connId s0 hl0 c hc0)
          · exact (awApplyUpdate_added wu room.aw c hcadd).2
        · rw [if_neg hj] at hjs
          exact awApplyUpdate_meta_mono wu room.aw c (hmeta j s hjs c hcs)
      · intro j s j' s' hjs hjs' c hcs hcs'
        rw [hlook j] at hjs
        rw [hlook j'] at hjs'
        by_cases hj : j = connId <;> by_cases hj' : j' = connId
        · rw [hj, hj']
        · rw [if_pos hj] at hjs
          rw [if_neg hj'] at hjs'
          injection hjs with hs
          subst hs
          rcases applyOwned_mem _ _ _ c hcs with hcow | hcadd
          · obtain ⟨s0, hl0, hc0⟩ := howmem c hcow
            rw [hj]
            exact huniq connId s0 j' s' hl0 hjs' c hc0 hcs'
          · have hnone := (awApplyUpdate_added wu room.aw c hcadd).1
            have hsome := hmeta j' s' hjs' c hcs'
            rw [hnone] at hsome
            simp at hsome
        · rw [if_neg hj] at hjs
          rw [if_pos hj'] at hjs'
          injection hjs' with hs
          subst hs
          rcases applyOwned_mem _ _ _ c hcs' with hcow | hcadd
          · obtain ⟨s0, hl0, hc0⟩ := howmem c hcow
            rw [hj']
            exact huniq j s connId s0 hjs hl0 c hcs hc0
          · have hnone := (awApplyUpdate_added wu room.aw c hcadd).1
            have hsome := hmeta j s hjs c hcs
            rw [hnone] at hsome
            simp at hsome
        · rw [if_neg hj] at hjs
          rw [if_neg hj'] at hjs'
          exact huniq j s j' s' hjs hjs' c hcs hcs'

theorem connInv_dispatchItems : ∀ (items : List DecodeItem) (room : YRoom)
    (connId : Nat), ConnInv room → ConnInv (dispatchItems room connId items).1 := by
  intro items
  induction items with
  | nil => intro room connId h; exact h
  | cons it rest ih =>
      intro room connId h
      cases it with
      | err => exact ih room connId h
      | ok m =>
          show ConnInv (dispatchItems (dispatchOne room connId m).1 connId rest).1
          exact ih _ connId (connInv_dispatchOne room connId m h)

theorem connInv_handleMessage (room : YRoom) (connId : Nat) (payload : List Nat)
    (h : ConnInv room) : ConnInv (room.handleMessage connId payload).1 := by
  unfold YRoom.handleMessage
  cases hd : decoderNew room.settings.protocol_version room.settings.namePfx
      payload with
  | none => exact h
  | some p =>
      obtain ⟨docName, body⟩ := p
      dsimp only
      exact connInv_dispatchItems _ room connId h

theorem connInv_connect (room : YRoom) (connId : Nat) (h : ConnInv room) :
    ConnInv (room.connect connId).1 := by
  obtain ⟨hnd, hmeta, huniq⟩ := h
  show ConnInv { room with connections := aensure room.connections connId [] }
  have hlook : ∀ j, alookup (aensure room.connections connId []) j =
      if j = connId then some ((alookup room.connections connId).getD [])
      else alookup room.connections j := by
    intro j
    by_cases hj : j = connId
    · subst hj
      simp [alookup_aensure_eq]
    · rw [if_neg hj, alookup_aensure_ne _ _ _ _ hj]
  refine ⟨aensure_keys_nodup _ _ _ hnd, ?_, ?_⟩
  · intro j s hjs c hcs
    rw [hlook j] at hjs
    by_cases hj : j = connId
    · rw [if_pos hj] at hjs
      injection hjs with hs
      subst hs
      cases hl : alookup room.connections connId with
      | some s0 =>
          rw [hl] at hcs
          exact hmeta connId s0 hl c hcs
      | none =>
          rw [hl] at hcs
          simp at hcs
    · rw [if_neg hj] at hjs
      exact hmeta j s hjs c hcs
  · intro j s j' s' hjs hjs' c hcs hcs'
    rw [hlook j] at hjs
    rw [hlook j'] at hjs'
    by_cases hj : j = connId <;> by_cases hj' : j' = connId
    · rw [hj, hj']
    · rw [if_pos hj] at hjs
      rw [if_neg hj'] at hjs'
      injection hjs with hs
      subst hs
      cases hl : alookup room.connections connId with
      | some s0 =>
          rw [hl] at hcs
          rw [hj]
          exact huniq connId s0 j' s' hl hjs' c hcs hcs'
      | none =>
          rw [hl] at hcs
          simp at hcs
    · rw [if_neg hj] at hjs
      rw [if_pos hj'] at hjs'
      injection hjs' with hs
      subst hs
      cases hl : alookup room.connections connId with
      | some s0 =>
          rw [hl] at hcs'
          rw [hj']
          exact huniq j s connId s0 hjs hl c hcs hcs'
      | none =>
          rw [hl] at hcs'
          simp at hcs'
    · rw [if_neg hj] at hjs
      rw [if_neg hj'] at hjs'
      exact huniq j s j' s' hjs hjs' c hcs hcs'

theorem connInv_disconnect (room : YRoom) (connId : Nat) (h : ConnInv room) :
    ConnInv (room.disconnect connId).1 := by
  obtain ⟨hnd, hmeta, huniq⟩ := h
  show ConnInv { room with
    aw := ((alookup room.connections connId).getD []).foldl awRemoveState room.aw
    connections := aerase room.connections connId }
  refine ⟨aerase_keys_nodup _ _ hnd, ?_, ?_⟩
  · intro j s hjs c hcs
    by_cases hj : j = connId
    · subst hj
      rw [alookup_aerase_self _ _ hnd] at hjs
      simp at hjs
    · rw [alookup_aerase_ne _ _ _ hj] at hjs
      exact foldl_awRemoveState_meta_mono _ room.aw c (hmeta j s hjs c hcs)
  · intro j s j' s' hjs hjs' c hcs hcs'
    by_cases hj : j = connId
    · subst hj
      rw [alookup_aerase_self _ _ hnd] at hjs
      simp at hjs
    · by_cases hj' : j' = connId
      · subst hj'
        rw [alookup_aerase_self _ _ hnd] at hjs'
        simp at hjs'
      · rw [alookup_aerase_ne _ _ _ hj] at hjs
        rw [alookup_aerase_ne _ _ _ hj'] at hjs'
        exact huniq j s j' s' hjs hjs' c hcs hcs'

/-- C2: in every room state reachable from a fresh room by any sequence of
connect, handle_message, and disconnect operations — including awareness
diffs sent by different connections concerning the same client id — each
client id appears in the owned set of at most one connection in the
connection table. -/
theorem c2_single_writer (s0 : YRoomSettings) (d : Doc) (room : YRoom)
    (h : Relation.ReflTransGen RoomStep (YRoom.initial s0 d) room) :
    ∀ j s j' s', alookup room.connections j = some s →
      alookup room.connections j' = some s' →
      ∀ c, c ∈ s → c ∈ s' → j = j' := by
  have hinv : ConnInv room := by
    induction h with
    | refl =>
        refine ⟨List.nodup_nil, ?_, ?_⟩
        · intro j s hjs
          simp [YRoom.initial, alookup] at hjs
        · intro j s j' s' hjs
          simp [YRoom.initial, alookup] at hjs
    | tail h1 h2 ih =>
        cases h2 with
        | connect connId => exact connInv_connect _ connId ih
        | message connId payload => exact connInv_handleMessage _ connId payload ih
        | disconnect connId => exact connInv_disconnect _ connId ih
  exact hinv.2.2

/-- C2 witness: in the reachable room where connection 1 has introduced
client 10, the single-writer property instantiates at connection 1's entry
(owning client 10) against itself. -/
theorem c2_witness : (1 : Nat) = 1 :=
  c2_single_writer defaultSettings [] c2Room
    (Relation.ReflTransGen.single
      (RoomStep.message (YRoom.initial defaultSettings []) 1
        (toVec .v1 none [Message.awareness [⟨10, 1, [34, 97, 34]⟩]])))
    1 [10] 1 [10] (by decide) (by decide) 10 (by decide) (by decide)

end YRoomModel

